import Mathlib

/-!
Verification development for the DragonStash on-disk cache
(github.com/horazont/dragonstash, Go sources).

The Go sources are shallowly embedded: machine integers (`uint64`,
`uint16`, `int64`) are modelled as `Nat`/`Int`; the subtractions that can
underflow in Go are written with an explicit wrap `sub64` (mod 2^64);
the 16-bit blockmap entry's bit operations `& 0x00ff` / `&^ 0x00ff | v`
are written in their arithmetic form `% 256` / `256*(e/256) + v`, which
agrees with the bit-level Go code for 16-bit values (the entry values our
operations produce and consume).  Disk files are modelled by their logical
content; write errors and mmap failures are out of scope (every write
succeeds and writes all its bytes).
-/

namespace DragonStash

/-- `BLOCK_SIZE` from `internal/filecache/filecache.go`. -/
def BLOCK_SIZE : Nat := 4096

/-- `2^64`, the modulus of Go's `uint64` arithmetic. -/
def W64 : Nat := 2 ^ 64

/-- Go `uint64` subtraction `a - b` (wraps around on underflow). -/
def sub64 (a b : Nat) : Nat := (a + W64 - b % W64) % W64

/-! ## blockinfo (internal/filecache/fileinode.go)

A blockmap entry is a `uint16`: bits 15..12 flags, bits 7..0 a saturating
access counter (ACTR).  `readACTR e = e & 0x00ff` and
`writeACTR e v = (e &^ 0x00ff) | v`; for `e < 2^16` and `v < 2^8` these
are `e % 256` and `256*(e/256) + v`. -/

/-- `blockinfo.readACTR`: the low 8 bits (`m & block_ACTR_MASK`). -/
def readACTR (m : Nat) : Nat := m % 256

/-- `blockinfo.writeACTR`: replace the low 8 bits by `v`
(`(m &^ block_ACTR_MASK) | v`). -/
def writeACTR (m v : Nat) : Nat := 256 * (m / 256) + v

/-- `blockinfo.IsAvailable`: `readACTR ≠ 0`. -/
def blockIsAvailable (m : Nat) : Bool := readACTR m ≠ 0

/-- `blockinfo.Touch`: saturating increment of ACTR.
Returns `(entry', new, overflow)`. -/
def touch (m : Nat) : Nat × Bool × Bool :=
  let ctr := readACTR m
  if ctr = 255 then (m, false, true)
  else (writeACTR m (ctr + 1), ctr = 0, ctr + 1 = 255)

/-- `blockinfo.Shift`: halve ACTR, but keep non-zero values non-zero. -/
def shift (m : Nat) : Nat :=
  let ctr := readACTR m
  if ctr = 0 then m
  else
    let ctr := ctr / 2
    writeACTR m (if ctr = 0 then 1 else ctr)

/-- `blockinfo.Discard`: zero the whole entry; report whether ACTR was
non-zero. -/
def discardEntry (m : Nat) : Nat × Bool := (0, readACTR m ≠ 0)

/-! ## fileInode (internal/filecache/fileinode.go)

State: the inode `size`, the `blocks_used` counter, and the blockmap
region of the metadata file (everything after the 128-byte header, in
2-byte entries).  `bmap = []` models the freshly created, still empty
metadata file; after the first resize the region always occupies whole
4 KiB pages.  File truncation semantics: shrinking drops entries, growing
appends zero entries. -/

structure FileInode where
  size : Nat
  blocks_used : Nat
  bmap : List Nat
  deriving Repr, DecidableEq

/-- Entry `i` of the blockmap region (indexing the mmapped slice). -/
def entryAt (l : List Nat) (i : Nat) : Nat := l.getD i 0

/-- `fileInode.SizeBlocks`: `ceil(size / BLOCK_SIZE)`. -/
def sizeBlocks (st : FileInode) : Nat := (st.size + BLOCK_SIZE - 1) / BLOCK_SIZE

/-- `fileInode.IsAvailable`. -/
def isAvailable (st : FileInode) (block : Nat) : Bool :=
  if block ≥ sizeBlocks st then false
  else blockIsAvailable (entryAt st.bmap block)

/-- `Touch` the `n` entries starting at index `i`; returns the new region
and how many touched entries were previously new (counter zero). -/
def touchRange (l : List Nat) (i : Nat) : Nat → List Nat × Nat
  | 0 => (l, 0)
  | n + 1 =>
    let t := touch (entryAt l i)
    let r := touchRange (l.set i t.1) (i + 1) n
    (r.1, (if t.2.1 then 1 else 0) + r.2)

/-- `fileInode.SetWritten`. -/
def setWritten (st : FileInode) (start end_ : Nat) : FileInode :=
  let nblocks := sizeBlocks st
  if start ≥ nblocks then st
  else if end_ ≤ start then st
  else
    let e := if end_ > nblocks then nblocks else end_
    let r := touchRange st.bmap start (e - start)
    { st with bmap := r.1, blocks_used := (st.blocks_used + r.2) % W64 }

/-- `fileInode.SetRead` (delegates to `SetWritten`). -/
def setRead (st : FileInode) (start end_ : Nat) : FileInode :=
  setWritten st start end_

/-- `Discard` the `n` entries starting at index `i`; returns the new
region and how many of them were previously available. -/
def discardRange (l : List Nat) (i : Nat) : Nat → List Nat × Nat
  | 0 => (l, 0)
  | n + 1 =>
    let d := discardEntry (entryAt l i)
    let r := discardRange (l.set i d.1) (i + 1) n
    (r.1, (if d.2 then 1 else 0) + r.2)

/-- `fileInode.Discard` (the range operation; note that unlike
`SetWritten` it does not clamp `end_` to `SizeBlocks`). -/
def fiDiscard (st : FileInode) (start end_ : Nat) : FileInode × Nat :=
  if start ≥ sizeBlocks st then (st, 0)
  else if end_ ≤ start then (st, 0)
  else
    let r := discardRange st.bmap start (end_ - start)
    ({ st with bmap := r.1, blocks_used := sub64 st.blocks_used r.2 }, r.2)

/-- `fileInode.getAvailableBlocks`: count available entries in
`[start, end_)` (reads the blockmap region directly). -/
def countAvail (l : List Nat) (start end_ : Nat) : Nat :=
  ((List.range' start (end_ - start)).filter
    (fun i => blockIsAvailable (entryAt l i))).length

/-- Page-align a byte count (`resizeMapToBlocks`). -/
def pageRound (n : Nat) : Nat :=
  ((n + BLOCK_SIZE - 1) / BLOCK_SIZE) * BLOCK_SIZE

/-- Model of file truncation to `n` entries: keep a prefix, zero-fill
any extension. -/
def adjustRegion (l : List Nat) (n : Nat) : List Nat :=
  l.take n ++ List.replicate (n - l.length) 0

/-- `fileInode.resizeMapToBlocks`: truncate the metadata file so its
blockmap region holds `new_blocks` entries, rounded up to whole pages.
The current backing size is 0 for the fresh empty file, else
`128 + 2·(number of entries)`. -/
def resizeRegion (l : List Nat) (new_blocks : Nat) : List Nat :=
  let curr_size := if l.isEmpty then 0 else 128 + 2 * l.length
  let new_size := pageRound (new_blocks * 2 + 128)
  if curr_size = new_size then l
  else adjustRegion l ((new_size - 128) / 2)

/-- `fileInode.Resize`.  Returns the new state and the number of blocks
reported as discarded.  (Note: exactly as in the source, `blocks_used`
is not updated here.) -/
def fiResize (st : FileInode) (nbytes : Nat) : FileInode × Nat :=
  let new_blocks := (nbytes + BLOCK_SIZE - 1) / BLOCK_SIZE
  let old_size := st.size
  let old_blocks := sizeBlocks st
  let dm : Nat × List Nat :=
    if new_blocks < old_blocks then
      (countAvail st.bmap new_blocks old_blocks, st.bmap)
    else if nbytes > old_size ∧ old_size > 0 ∧ old_size % BLOCK_SIZE ≠ 0 then
      let d := discardEntry (entryAt st.bmap (old_blocks - 1))
      ((if d.2 then 1 else 0), st.bmap.set (old_blocks - 1) d.1)
    else (0, st.bmap)
  ({ size := nbytes, blocks_used := st.blocks_used,
     bmap := resizeRegion dm.2 new_blocks }, dm.1)

/-- `fileInode.Blocks`. -/
def fiBlocks (st : FileInode) : Nat :=
  if sizeBlocks st = 0 then 0 else st.blocks_used

/-- Number of blockmap entries with a positive access counter. -/
def countACTRpos (l : List Nat) : Nat :=
  (l.filter (fun e => blockIsAvailable e)).length

/-- The scan loop of `fileInode.TruncateRead`: the first index `b` in
`[i, i+n)` whose blockmap entry is unavailable, if any. -/
def scanUnavail (l : List Nat) (i : Nat) : Nat → Option Nat
  | 0 => none
  | n + 1 =>
    if blockIsAvailable (entryAt l i) then scanUnavail l (i + 1) n
    else some i

/-- `fileInode.TruncateRead`: truncate a read of `size` bytes at
`position` to the contiguous run of available blocks (and to the file
size).  Returns `(actual_size, at_eof)`.  The two subtractions are
written with the Go `uint64` wrap they actually have. -/
def truncateRead (st : FileInode) (position size : Nat) : Nat × Bool :=
  let filesize := st.size
  if filesize = 0 then (0, true)
  else
    let start_block := position / BLOCK_SIZE
    let ebs : Nat × Nat × Bool :=
      if position + size > filesize then
        (filesize, sub64 filesize position, true)
      else (position + size, size, false)
    let end_byte := ebs.1
    let size' := ebs.2.1
    let at_eof := ebs.2.2
    let end_block := ((position + size' + (BLOCK_SIZE - 1)) % W64) / BLOCK_SIZE
    let scan := scanUnavail st.bmap start_block (end_block - start_block)
    let actual_end_block := scan.getD end_block
    let at_eof := if scan.isSome then false else at_eof
    if actual_end_block ≤ start_block then (0, false)
    else
      let aeb0 := actual_end_block * BLOCK_SIZE
      let aeb1 := if aeb0 > end_byte then end_byte else aeb0
      let aeb2 := if aeb1 > filesize then filesize else aeb1
      let at_eof := if aeb1 > filesize then true else at_eof
      (sub64 aeb2 position, at_eof)

/-! ## fileCachedFile (the `filecache` package's cached-file handle)

State: the `fileInode` plus the size of the separate `.data` file
(`m.size()` stats that file).  Byte contents are not modelled: every
outcome the claims talk about (byte counts, errors) depends only on
sizes and the blockmap.  `WriteAt` succeeds and writes all bytes. -/

structure CachedFile where
  inode : FileInode
  dataSize : Nat
  deriving Repr, DecidableEq

/-- The cache error kinds reachable from the cached-file operations:
`cache.ErrMustBeAligned` and the wrapped `EIO`-grade errors. -/
inductive CErr where
  | mustBeAligned
  | eio
  deriving Repr, DecidableEq

/-- `fileCachedFile.resize` (inode resize + `.data` truncate). -/
def cfResize (cf : CachedFile) (new_size : Nat) : CachedFile :=
  { inode := (fiResize cf.inode new_size).1, dataSize := new_size }

/-- `fileCachedFile.writeAndMarkWritten` with a full (non-short) write:
extend the `.data` file as needed and mark the written blocks.
(The short-write discard branch is unreachable in this failure-free
model.) -/
def writeAndMarkWritten (cf : CachedFile) (len position : Nat) : CachedFile :=
  let end_byte := len + position
  let end_block := (end_byte + BLOCK_SIZE - 1) / BLOCK_SIZE
  { inode := setWritten cf.inode (position / BLOCK_SIZE) end_block,
    dataSize := max cf.dataSize end_byte }

/-- `fileCachedFile.writeRandom`. -/
def writeRandom (cf : CachedFile) (len position : Nat) :
    CachedFile × Option CErr :=
  let start_block := position / BLOCK_SIZE
  let start_aligned := start_block * BLOCK_SIZE = position
  let end_byte := position + len
  let end_block := (end_byte + BLOCK_SIZE - 1) / BLOCK_SIZE
  let end_aligned := end_block * BLOCK_SIZE = end_byte
  if ¬start_aligned ∧ ¬isAvailable cf.inode start_block then
    (cf, some .mustBeAligned)
  else if ¬end_aligned ∧ ¬isAvailable cf.inode (end_block - 1) then
    (cf, some .mustBeAligned)
  else (writeAndMarkWritten cf len position, none)

/-- `fileCachedFile.writeAndExtend`. -/
def writeAndExtend (cf : CachedFile) (len position : Nat) :
    CachedFile × Option CErr :=
  let start_block := position / BLOCK_SIZE
  let start_aligned := start_block * BLOCK_SIZE = position
  let end_byte := position + len
  if ¬start_aligned ∧ ¬isAvailable cf.inode start_block then
    (cf, some .mustBeAligned)
  else (writeAndMarkWritten (cfResize cf end_byte) len position, none)

/-- `fileCachedFile.appendToEnd`. -/
def appendToEnd (cf : CachedFile) (len position : Nat) :
    CachedFile × Option CErr :=
  (writeAndMarkWritten (cfResize cf (len + position)) len position, none)

/-- `fileCachedFile.PutData` (dispatch by position versus the current
`.data` file size). -/
def putData (cf : CachedFile) (len position : Nat) :
    CachedFile × Option CErr :=
  let start_byte := position
  let end_byte := len + position
  let size := cf.dataSize
  if start_byte = size then appendToEnd cf len position
  else if end_byte ≥ size then writeAndExtend cf len position
  else writeRandom cf len position

/-- `fileCachedFile.FetchData` on a buffer of `buflen` bytes.  `none`
models the Go panic on `data[:to_read]` when `to_read > len(data)`
(reachable only through `TruncateRead`'s underflow).  `ReadAt` returns
`min` of the request and what is physically in the `.data` file, with a
non-nil error exactly for a physically short read; both the
`ReadAt`-error branch and the `data not in cache` branch surface as an
`EIO`-grade error, so a short result always carries an error. -/
def fetchData (cf : CachedFile) (buflen position : Nat) :
    Option (Nat × Option CErr) :=
  let to_read := (truncateRead cf.inode position buflen).1
  if to_read > buflen then none
  else
    let n := min to_read (cf.dataSize - position)
    some (n, if n < buflen then some .eio else none)

/-! ## alignRead (the `cache` package's overlay read path) -/

/-- `alignRead` from the overlay read path (`int64` arithmetic; Go's `%`
is truncated division's remainder, `Int.tmod`). -/
def alignRead (position length blocksize : Int) : Int × Int × Int :=
  let shift := position.tmod blocksize
  let nlo : Int × Int × Int :=
    if shift ≠ 0 then (position - shift, length + shift, shift)
    else (position, length, 0)
  let add := nlo.2.1.tmod blocksize
  let new_length := if add ≠ 0 then nlo.2.1 + (blocksize - add) else nlo.2.1
  (nlo.1, new_length, nlo.2.2)

/-! ## Inodes and the FileCache manager
(internal/filecache/inode.go, internal/filecache/filecache.go)

Storage keys: `getStoragePath` is the (sliced, base64) SHA-256 of the
path plus a suffix; modulo hash collisions it is injective in the path,
so the model keys disk files by the pair (path, suffix) directly.
A disk file is `some inode` when parseable by `openInode`, `none` when it
exists but cannot be parsed (e.g. the empty metadata file `createEmptyInode`
creates before the first header write). -/

/-- `mode & S_IFMT` (`S_IFMT = 0o170000`, bits 12..15). -/
def typeBits (m : Nat) : Nat := m / 4096 % 16 * 4096

def S_IFDIR : Nat := 0o040000
def S_IFREG : Nat := 0o100000
def S_IFLNK : Nat := 0o120000

/-- `baseInode.Chmod`: replace the permission bits
(`S_IRWXU|S_IRWXG|S_IRWXO = 0o777`) by those of `perms`:
`(mode &^ 0o777) | (perms & 0o777) = 512*(mode/512) + perms % 512`. -/
def chmodMode (mode perms : Nat) : Nat := 512 * (mode / 512) + perms % 512

/-- A `layer.FileStat` (the stat view used by `PutAttr`/`FetchAttr`). -/
structure Stat where
  mode : Nat
  uid : Nat
  gid : Nat
  mtime : Nat
  atime : Nat
  ctime : Nat
  size : Nat
  blocks : Nat
  deriving Repr, DecidableEq

/-- The `baseInode` attribute fields. -/
structure BaseAttrs where
  mode : Nat
  mtime : Nat
  atime : Nat
  ctime : Nat
  size : Nat
  uid : Nat
  gid : Nat
  deriving Repr, DecidableEq

/-- The per-format extension of an inode. -/
inductive Ext where
  | link (dest : String)
  | dir (children : List String)
  | reg (blocks_used : Nat) (bmap : List Nat)
  deriving Repr, DecidableEq

/-- An in-memory inode: storage key, base attributes, extension. -/
structure Inode where
  spath : String
  base : BaseAttrs
  ext : Ext
  deriving Repr, DecidableEq

/-- The `FileInode` view of a regular inode's cache state. -/
def regFI (i : Inode) : FileInode :=
  match i.ext with
  | .reg bu bmap => ⟨i.base.size, bu, bmap⟩
  | _ => ⟨i.base.size, 0, []⟩

/-- The stat view an inode presents (`FetchAttr` returns the inode as a
`layer.FileStat`): `Blocks()` is 0 from `baseInode` and overridden by
`fileInode`. -/
def statView (i : Inode) : Stat :=
  { mode := i.base.mode, uid := i.base.uid, gid := i.base.gid,
    mtime := i.base.mtime, atime := i.base.atime, ctime := i.base.ctime,
    size := i.base.size,
    blocks := match i.ext with
      | .reg bu bmap => fiBlocks ⟨i.base.size, bu, bmap⟩
      | _ => 0 }

/-- `updateInode`: copy mode (through `SetMode = Chmod`), times, owner
and size from `src`.  For a regular inode `SetSize` runs `Resize`. -/
def updateInode (src : Stat) (i : Inode) : Inode :=
  let mode' := chmodMode i.base.mode src.mode
  let base' : BaseAttrs :=
    { mode := mode', mtime := src.mtime, atime := src.atime,
      ctime := src.ctime, size := src.size, uid := src.uid, gid := src.gid }
  match i.ext with
  | .reg bu bmap =>
    let fi := (fiResize ⟨i.base.size, bu, bmap⟩ src.size).1
    { i with base := { base' with size := fi.size },
             ext := .reg fi.blocks_used fi.bmap }
  | e => { i with base := base', ext := e }

/-- `normalizePath` from `internal/filecache/filecache.go`. -/
def normalizePath (path : String) : String :=
  if path = "/" then ""
  else if path.length > 0 ∧ path.front ≠ '/' then "/" ++ path
  else path

/-- Association-list update. -/
def aput (l : List (String × Inode)) (k : String) (v : Inode) :
    List (String × Inode) :=
  (k, v) :: l.filter (fun e => e.1 ≠ k)

def aget (l : List (String × Inode)) (k : String) : Option Inode :=
  (l.find? (fun e => e.1 = k)).map (·.2)

def adel (l : List (String × Inode)) (k : String) : List (String × Inode) :=
  l.filter (fun e => e.1 ≠ k)

/-- Disk: files keyed by (storage key, suffix). -/
def dput (l : List ((String × String) × Option Inode)) (k : String × String)
    (v : Option Inode) : List ((String × String) × Option Inode) :=
  (k, v) :: l.filter (fun e => e.1 ≠ k)

def dget (l : List ((String × String) × Option Inode)) (k : String × String) :
    Option (Option Inode) :=
  (l.find? (fun e => e.1 = k)).map (·.2)

def ddel (l : List ((String × String) × Option Inode)) (k : String × String) :
    List ((String × String) × Option Inode) :=
  l.filter (fun e => e.1 ≠ k)

/-- `FileCache` state: the in-memory inode map, the dirty set (inode
values standing in for the Go pointer set) and the on-disk files. -/
structure FileCacheState where
  mem : List (String × Inode)
  dirty : List Inode
  disk : List ((String × String) × Option Inode)
  deriving Repr, DecidableEq

def emptyCache : FileCacheState := ⟨[], [], []⟩

/-- `FileCache.markInodeDirty` (set insert, keyed by storage path). -/
def markDirty (d : List Inode) (i : Inode) : List Inode :=
  i :: d.filter (fun j => j.spath ≠ i.spath)

/-- `inode.Sync()`: link and dir inodes rewrite their whole storage file
(safe-file rename); a regular inode rewrites its metadata header in
place.  Either way the result on disk is the serialized inode. -/
def syncInode (disk : List ((String × String) × Option Inode)) (i : Inode) :
    List ((String × String) × Option Inode) :=
  dput disk (i.spath, "") (some i)

/-- `FileCache.writeback`: sync every dirty inode.  (As in the source,
the dirty set is not cleared.) -/
def writeback (st : FileCacheState) : FileCacheState :=
  { st with disk := st.dirty.foldl syncInode st.disk }

/-- `FileCache.getInode`: the in-memory map, else `openInode` from disk
(`getStoragePath(path, "")`); `none` is the `EIO` failure. -/
def getInode (st : FileCacheState) (path : String) : Option Inode :=
  match aget st.mem path with
  | some i => some i
  | none =>
    match dget st.disk (path, "") with
    | some (some i) => some i
    | _ => none

/-- `createEmptyInode(storage_path, format)`: zero attributes except the
mode (= format).  For `S_IFREG` the metadata file is created with
`O_CREATE|O_EXCL`, so an existing file makes it fail; formats other than
link/dir/reg fail with `ENOSYS`.  A failure makes `requireInode` panic:
modelled as `none`. -/
def createEmptyInode (disk : List ((String × String) × Option Inode))
    (spath : String) (format : Nat) :
    Option (Inode × List ((String × String) × Option Inode)) :=
  let base : BaseAttrs := ⟨format, 0, 0, 0, 0, 0, 0⟩
  if format = S_IFLNK then some (⟨spath, base, .link ""⟩, disk)
  else if format = S_IFDIR then some (⟨spath, base, .dir []⟩, disk)
  else if format = S_IFREG then
    if (dget disk (spath, "")).isSome then none
    else some (⟨spath, base, .reg 0 []⟩, dput disk (spath, "") none)
  else none

/-- Provenance of the inode `requireInode` hands back. -/
inductive Prov where
  | inMem      -- it is (now) in the in-memory map
  | orphan     -- loaded from disk, not added to the map
  deriving Repr, DecidableEq

/-- `FileCache.requireInode`: reuse a matching-format inode (from the
map, or loaded from disk without being added to the map), else create an
empty one and register it.  `none` models the panic on
`createEmptyInode` failure. -/
def requireInode (st : FileCacheState) (path : String) (format : Nat) :
    Option (FileCacheState × Inode × Prov) :=
  let fresh : Option (FileCacheState × Inode × Prov) :=
    (createEmptyInode st.disk path format).map fun (i, disk') =>
      ({ st with mem := aput st.mem path i, disk := disk',
                 dirty := markDirty st.dirty i }, i, .inMem)
  match aget st.mem path with
  | some i => if typeBits i.base.mode = format then some (st, i, .inMem) else fresh
  | none =>
    match dget st.disk (path, "") with
    | some (some i) =>
      if typeBits i.base.mode = format then some (st, i, .orphan) else fresh
    | _ => fresh

/-- Write the updated inode back into the cache state: the Go code
mutates the shared inode object, so the map entry (when the inode is in
the map) and the dirty set see the update; a regular inode additionally
rewrites its metadata file in place (`Resize` → `writeMetadata`). -/
def commitUpdate (st : FileCacheState) (path : String) (i : Inode)
    (prov : Prov) : FileCacheState :=
  let mem' := match prov with
    | .inMem => aput st.mem path i
    | .orphan => st.mem
  let disk' := match i.ext with
    | .reg _ _ => dput st.disk (i.spath, "") (some i)
    | _ => st.disk
  { st with mem := mem', dirty := markDirty st.dirty i, disk := disk' }

/-- `FileCache.putAttr` (+ the `PutAttr` path normalization); `none`
models the `requireInode` panic. -/
def putAttr (st : FileCacheState) (path : String) (s : Stat) :
    Option FileCacheState :=
  let p := normalizePath path
  (requireInode st p (typeBits s.mode)).map fun (st1, i, prov) =>
    commitUpdate st1 p (updateInode s i) prov

/-- `FileCache.PutLink`: require a symlink inode, set its destination,
mark dirty, write back. -/
def putLink (st : FileCacheState) (path dest : String) :
    Option FileCacheState :=
  let p := normalizePath path
  (requireInode st p S_IFLNK).map fun (st1, i, prov) =>
    let i' := { i with ext := .link dest }
    let mem' := match prov with
      | .inMem => aput st1.mem p i'
      | .orphan => st1.mem
    writeback { st1 with mem := mem', dirty := markDirty st1.dirty i' }

/-- `FileCache.deleteInode`: drop the in-memory entry, then remove the
file at `getStoragePath(path, ".inode")` — note the suffix. -/
def deleteInode (st : FileCacheState) (path : String) : FileCacheState :=
  let dirty' := match aget st.mem path with
    | some i => st.dirty.filter (fun j => j ≠ i)
    | none => st.dirty
  { mem := adel st.mem path, dirty := dirty',
    disk := ddel st.disk (path, ".inode") }

/-- `FileCache.PutNonExistant`. -/
def putNonExistant (st : FileCacheState) (path : String) : FileCacheState :=
  deleteInode st (normalizePath path)

/-- `FileCache.FetchAttr`: `some stat` on success, `none` for the
wrapped `EIO` error. -/
def fetchAttr (st : FileCacheState) (path : String) : Option Stat :=
  (getInode st (normalizePath path)).map statView

/-! # Theorems -/

/-- **C8.** For every 16-bit blockmap entry: `IsAvailable` holds iff
`ACTR ≠ 0` (the low 8 bits); `Touch()` at `ACTR = 255` returns
`(false, true)` and leaves the entry unchanged, and otherwise increments
`ACTR` (leaving the flag bits alone) and returns
`(old = 0, new = 255)`; `Shift()` leaves a zero counter alone and maps a
non-zero counter to `max 1 (ACTR/2)` — so a non-zero counter stays
non-zero; `Discard()` zeroes the whole entry and returns whether `ACTR`
was previously non-zero. -/
theorem claim_C8 (e : Nat) (h16 : e < 2 ^ 16) :
    (blockIsAvailable e = true ↔ e % 256 ≠ 0)
    ∧ (e % 256 = 255 → touch e = (e, false, true))
    ∧ (e % 256 ≠ 255 →
        (touch e).1 % 256 = e % 256 + 1
        ∧ (touch e).1 / 256 = e / 256
        ∧ (touch e).2.1 = decide (e % 256 = 0)
        ∧ (touch e).2.2 = decide (e % 256 + 1 = 255))
    ∧ (e % 256 = 0 → shift e = e)
    ∧ (e % 256 ≠ 0 →
        (shift e) % 256 = max 1 (e % 256 / 2)
        ∧ (shift e) / 256 = e / 256
        ∧ (shift e) % 256 ≠ 0)
    ∧ discardEntry e = (0, decide (e % 256 ≠ 0)) := by
  refine ⟨?_, ?_, ?_, ?_, ?_, rfl⟩
  · simp [blockIsAvailable, readACTR]
  · intro h
    simp [touch, readACTR, h]
  · intro h
    simp only [touch, readACTR, writeACTR, if_neg h]
    exact ⟨by omega, by omega, trivial, trivial⟩
  · intro h
    simp [shift, readACTR, h]
  · intro h
    simp only [shift, readACTR, writeACTR, if_neg h]
    by_cases h2 : e % 256 / 2 = 0
    · rw [if_pos h2]
      exact ⟨by omega, by omega, by omega⟩
    · rw [if_neg h2]
      exact ⟨by omega, by omega, by omega⟩

/-- Witness for C8 at the concrete entry `0x8003`
(dirty flag set, `ACTR = 3`). -/
theorem claim_C8_witness :
    (32771 : Nat) < 2 ^ 16
    ∧ (blockIsAvailable 32771 = true ↔ (32771 : Nat) % 256 ≠ 0)
    ∧ ((32771 : Nat) % 256 ≠ 0 →
        (shift 32771) % 256 = max 1 ((32771 : Nat) % 256 / 2)
        ∧ (shift 32771) / 256 = (32771 : Nat) / 256
        ∧ (shift 32771) % 256 ≠ 0) :=
  ⟨by norm_num, (claim_C8 32771 (by norm_num)).1,
    (claim_C8 32771 (by norm_num)).2.2.2.2.1⟩

/-- **C9.** Attribute setting preserves the file-type bits:
`Chmod(perms)` replaces exactly the permission bits
(`mode % 512`, i.e. `S_IRWXU|S_IRWXG|S_IRWXO`) by those of `perms` and
leaves everything above them — in particular `mode & S_IFMT`
(`typeBits`) — unchanged; `SetMode` is `Chmod`; and `updateInode` never
changes the type of an existing inode. -/
theorem claim_C9 (mode perms : Nat) (s : Stat) (i : Inode) :
    typeBits (chmodMode mode perms) = typeBits mode
    ∧ chmodMode mode perms % 512 = perms % 512
    ∧ chmodMode mode perms / 512 = mode / 512
    ∧ typeBits (updateInode s i).base.mode = typeBits i.base.mode := by
  refine ⟨?_, ?_, ?_, ?_⟩
  · simp only [typeBits, chmodMode]; omega
  · simp only [chmodMode]; omega
  · simp only [chmodMode]; omega
  · have h : (updateInode s i).base.mode = chmodMode i.base.mode s.mode := by
      cases hext : i.ext <;> simp [updateInode, hext]
    rw [h]; simp only [typeBits, chmodMode]; omega

/-- Closed form of `alignRead` on non-negative inputs. -/
theorem alignRead_closed (pos len B : Int) (hpos : 0 ≤ pos) (hlen : 0 ≤ len)
    (hB : 0 < B) :
    alignRead pos len B =
      (B * (pos / B),
       B * (if (len + pos % B) % B ≠ 0 then (len + pos % B) / B + 1
            else (len + pos % B) / B),
       pos % B) := by
  have hBne : B ≠ 0 := ne_of_gt hB
  have hshift : pos.tmod B = pos % B := Int.tmod_eq_emod hpos (le_of_lt hB)
  have hr0 : 0 ≤ pos % B := Int.emod_nonneg pos hBne
  have hrB : pos % B < B := Int.emod_lt_of_pos pos hB
  have hqr : B * (pos / B) + pos % B = pos := Int.ediv_add_emod pos B
  have hLnn : 0 ≤ len + pos % B := by omega
  have hLtm : (len + pos % B).tmod B = (len + pos % B) % B :=
    Int.tmod_eq_emod hLnn (le_of_lt hB)
  have hLr0 : 0 ≤ (len + pos % B) % B := Int.emod_nonneg _ hBne
  have hLrB : (len + pos % B) % B < B := Int.emod_lt_of_pos _ hB
  have hLqr : B * ((len + pos % B) / B) + (len + pos % B) % B = len + pos % B :=
    Int.ediv_add_emod _ B
  simp only [alignRead, hshift]
  by_cases hz : pos % B = 0
  · rw [hz] at hLtm hLr0 hLrB hLqr ⊢
    simp only [add_zero] at hLtm hLqr ⊢
    simp only [ne_eq, not_true_eq_false, if_false, ite_false, hLtm]
    by_cases hz2 : len % B = 0
    · simp only [hz2, ne_eq, not_true_eq_false, if_false, ite_false, Prod.mk.injEq]
      refine ⟨by omega, by linarith [hLqr], trivial⟩
    · simp only [ne_eq, hz2, not_false_eq_true, if_true, ite_true, Prod.mk.injEq]
      refine ⟨by omega, ?_, trivial⟩
      rw [mul_add, mul_one]; linarith [hLqr]
  · simp only [ne_eq, hz, not_false_eq_true, if_true, ite_true, hLtm]
    by_cases hz2 : (len + pos % B) % B = 0
    · simp only [hz2, ne_eq, not_true_eq_false, if_false, ite_false, Prod.mk.injEq]
      refine ⟨by omega, by linarith [hLqr], trivial⟩
    · simp only [ne_eq, hz2, not_false_eq_true, if_true, ite_true, Prod.mk.injEq]
      refine ⟨by omega, ?_, trivial⟩
      rw [mul_add, mul_one]; linarith [hLqr]

/-- **C4.** `alignRead(pos, len, B)` for `pos ≥ 0`, `len ≥ 0`, `B > 0`
returns `(new_position, new_length, offset)` with
`new_position = ⌊pos/B⌋·B`,
`new_length = ⌈(pos+len)/B⌉·B − new_position` (the ceiling written as
`(pos+len+B−1)/B` on non-negative values), hence `new_position ≤ pos`,
`new_position + new_length ≥ pos + len`, both are multiples of `B`, and
`offset = pos − new_position`.  At `(12325, 63, 4096)` this gives
`(12288, 4096, 37)` — the S5 table row. -/
theorem claim_C4 (pos len B : Int) (hpos : 0 ≤ pos) (hlen : 0 ≤ len)
    (hB : 0 < B) :
    (alignRead pos len B).1 = B * (pos / B)
    ∧ (alignRead pos len B).2.1 = ((pos + len + B - 1) / B) * B - B * (pos / B)
    ∧ (alignRead pos len B).1 ≤ pos
    ∧ pos + len ≤ (alignRead pos len B).1 + (alignRead pos len B).2.1
    ∧ B ∣ (alignRead pos len B).1
    ∧ B ∣ (alignRead pos len B).2.1
    ∧ (alignRead pos len B).2.2 = pos - (alignRead pos len B).1 := by
  have hBne : B ≠ 0 := ne_of_gt hB
  have hr0 : 0 ≤ pos % B := Int.emod_nonneg pos hBne
  have hrB : pos % B < B := Int.emod_lt_of_pos pos hB
  have hqr : B * (pos / B) + pos % B = pos := Int.ediv_add_emod pos B
  have hLr0 : 0 ≤ (len + pos % B) % B := Int.emod_nonneg _ hBne
  have hLrB : (len + pos % B) % B < B := Int.emod_lt_of_pos _ hB
  have hLqr : B * ((len + pos % B) / B) + (len + pos % B) % B = len + pos % B :=
    Int.ediv_add_emod _ B
  rw [alignRead_closed pos len B hpos hlen hB]
  have hceil : ((pos + len + B - 1) / B) =
      (if (len + pos % B) % B ≠ 0 then (len + pos % B) / B + 1
       else (len + pos % B) / B) + pos / B := by
    have hsum : pos + len + B - 1 = ((len + pos % B) + B - 1) + B * (pos / B) := by
      omega
    rw [hsum, Int.add_mul_ediv_left _ _ hBne]
    congr 1
    by_cases hz : (len + pos % B) % B = 0
    · have h : (len + pos % B) + B - 1 = (B - 1) + B * ((len + pos % B) / B) := by
        omega
      rw [h, Int.add_mul_ediv_left _ _ hBne,
        Int.ediv_eq_zero_of_lt (by omega) (by omega), if_neg (not_not_intro hz)]
      omega
    · have h : (len + pos % B) + B - 1 =
          ((len + pos % B) % B - 1) + B * ((len + pos % B) / B + 1) := by
        rw [mul_add, mul_one]; omega
      rw [h, Int.add_mul_ediv_left _ _ hBne,
        Int.ediv_eq_zero_of_lt (by omega) (by omega), if_pos hz]
      omega
  refine ⟨rfl, ?_, by omega, ?_, dvd_mul_right B _, dvd_mul_right B _,
    by dsimp only; omega⟩
  · rw [hceil, add_mul]
    ring
  · by_cases hz : (len + pos % B) % B = 0
    · simp only [hz, ne_eq, not_true_eq_false, if_false, ite_false]
      linarith [hLqr]
    · simp only [ne_eq, hz, not_false_eq_true, if_true, ite_true]
      rw [mul_add, mul_one]
      linarith [hLqr]

/-- Witness for C4 at the S5 table row `(12325, 63, 4096)`:
the aligned window is `(12288, 4096, 37)`. -/
theorem claim_C4_witness :
    (alignRead 12325 63 4096).1 = 4096 * ((12325 : Int) / 4096)
    ∧ (alignRead 12325 63 4096).2.2 = 12325 - (alignRead 12325 63 4096).1
    ∧ alignRead 12325 63 4096 = (12288, 4096, 37) := by
  have h := claim_C4 12325 63 4096 (by norm_num) (by norm_num) (by norm_num)
  exact ⟨h.1, h.2.2.2.2.2.2, by decide⟩

end DragonStash

namespace DragonStash

/-- Entries outside `[i, i+n)` are untouched by `touchRange`. -/
theorem touchRange_entryAt_out (n : Nat) (l : List Nat) (i j : Nat)
    (h : j < i ∨ i + n ≤ j) :
    entryAt (touchRange l i n).1 j = entryAt l j := by
  induction n generalizing l i with
  | zero => rfl
  | succ n ih =>
    have hji : j ≠ i := by omega
    have step : entryAt (l.set i (touch (entryAt l i)).1) j = entryAt l j := by
      simp only [entryAt, List.getD_eq_getElem?_getD,
        List.getElem?_set_ne (Ne.symm hji)]
    calc entryAt (touchRange l i (n + 1)).1 j
        = entryAt (touchRange (l.set i (touch (entryAt l i)).1) (i + 1) n).1 j := rfl
      _ = entryAt (l.set i (touch (entryAt l i)).1) j := ih _ _ (by omega)
      _ = entryAt l j := step

/-- **C10.** Block availability is confined to the file size: for every
block `b ≥ ceil(size/4096)`, `IsAvailable(b)` is `false`; `SetWritten`
(and `SetRead`, which delegates to it) is a no-op when
`start ≥ ceil(size/4096)` or `end ≤ start`, otherwise clamps `end` to
`ceil(size/4096)`; consequently no blockmap entry at or beyond
`ceil(size/4096)` is ever marked. -/
theorem claim_C10 (st : FileInode) (s e b : Nat) :
    (sizeBlocks st ≤ b → isAvailable st b = false)
    ∧ (sizeBlocks st ≤ s ∨ e ≤ s → setWritten st s e = st)
    ∧ setWritten st s e = setWritten st s (min e (sizeBlocks st))
    ∧ (sizeBlocks st ≤ b →
        entryAt (setWritten st s e).bmap b = entryAt st.bmap b)
    ∧ setRead st s e = setWritten st s e := by
  refine ⟨?_, ?_, ?_, ?_, rfl⟩
  · intro h
    simp [isAvailable, h]
  · intro h
    by_cases h1 : s ≥ sizeBlocks st
    · simp [setWritten, h1]
    · have h2 : e ≤ s := by omega
      simp [setWritten, h1, h2]
  · by_cases h1 : s ≥ sizeBlocks st
    · simp [setWritten, h1]
    · by_cases h2 : e ≤ s
      · have h2' : min e (sizeBlocks st) ≤ s := by omega
        simp [setWritten, h1, h2, h2']
      · have h2' : ¬ min e (sizeBlocks st) ≤ s := by omega
        have hX : (if e > sizeBlocks st then sizeBlocks st else e) =
            (if min e (sizeBlocks st) > sizeBlocks st then sizeBlocks st
             else min e (sizeBlocks st)) := by
          split <;> split <;> omega
        simp only [setWritten, if_neg h1, if_neg h2, if_neg h2', hX]
  · intro h
    by_cases h1 : s ≥ sizeBlocks st
    · simp [setWritten, h1]
    · by_cases h2 : e ≤ s
      · simp [setWritten, h1, h2]
      · simp only [setWritten, if_neg h1, if_neg h2]
        exact touchRange_entryAt_out _ _ _ _ (by split <;> omega)

/-- Witness for C10 at a concrete two-block inode. -/
theorem claim_C10_witness :
    (sizeBlocks ⟨8192, 0, [1, 1]⟩ ≤ 5 →
      isAvailable ⟨8192, 0, [1, 1]⟩ 5 = false)
    ∧ (sizeBlocks ⟨8192, 0, [1, 1]⟩ ≤ 5 →
        entryAt (setWritten ⟨8192, 0, [1, 1]⟩ 0 9).bmap 5 =
          entryAt (⟨8192, 0, [1, 1]⟩ : FileInode).bmap 5)
    ∧ sizeBlocks ⟨8192, 0, [1, 1]⟩ ≤ 5
    ∧ isAvailable ⟨8192, 0, [1, 1]⟩ 5 = false :=
  ⟨(claim_C10 ⟨8192, 0, [1, 1]⟩ 0 9 5).1,
   (claim_C10 ⟨8192, 0, [1, 1]⟩ 0 9 5).2.2.2.1,
   by decide,
   (claim_C10 ⟨8192, 0, [1, 1]⟩ 0 9 5).1 (by decide)⟩

end DragonStash

namespace DragonStash

/-! ### Concrete scenario states -/

/-- A freshly opened cached file over a freshly created regular inode. -/
def cfEmpty : CachedFile := ⟨⟨0, 0, []⟩, 0⟩

/-- S3 run: `PutData(5120 bytes, 0)` (append, marking blocks 0 and 1),
then `Resize(5121)`. -/
def stS3 : FileInode :=
  (fiResize (putData cfEmpty 5120 0).1.inode 5121).1

/-! ### Symbolic evaluation helpers for the page-sized blockmap region -/

theorem replicate1984_split : List.replicate 1984 (0 : Nat) = 0 :: 0 :: List.replicate 1982 0 := by
  rw [show (1984 : Nat) = 1983 + 1 from rfl, List.replicate_succ,
    show (1983 : Nat) = 1982 + 1 from rfl, List.replicate_succ]

theorem countACTRpos_replicate_zero (n : Nat) :
    countACTRpos (List.replicate n 0) = 0 := by
  induction n with
  | zero => rfl
  | succ n ih =>
    rw [List.replicate_succ]
    simpa [countACTRpos, List.filter_cons, blockIsAvailable, readACTR]
      using ih

theorem countACTRpos_cons (x : Nat) (t : List Nat) :
    countACTRpos (x :: t) =
      (if blockIsAvailable x then 1 else 0) + countACTRpos t := by
  simp only [countACTRpos, List.filter_cons]
  split <;> simp [Nat.add_comm]

/-- `Resize(5120)` on the fresh inode. -/
theorem fiResize_nil_5120 :
    fiResize ⟨0, 0, []⟩ 5120 = (⟨5120, 0, List.replicate 1984 0⟩, 0) := by
  simp only [fiResize, sizeBlocks, BLOCK_SIZE, resizeRegion, adjustRegion, pageRound]
  norm_num

/-- `Resize(8192)` on the fresh inode. -/
theorem fiResize_nil_8192 :
    fiResize ⟨0, 0, []⟩ 8192 = (⟨8192, 0, List.replicate 1984 0⟩, 0) := by
  simp only [fiResize, sizeBlocks, BLOCK_SIZE, resizeRegion, adjustRegion, pageRound]
  norm_num

/-- Marking blocks 0 and 1 of a two-block file. -/
theorem setWritten_5120 : setWritten ⟨5120, 0, List.replicate 1984 0⟩ 0 2 =
    ⟨5120, 2, 1 :: 1 :: List.replicate 1982 0⟩ := by
  rw [replicate1984_split]
  simp only [setWritten, sizeBlocks, BLOCK_SIZE, W64]
  norm_num
  simp only [touchRange, entryAt, touch, readACTR, writeACTR,
    List.getD_cons_zero, List.getD_cons_succ, List.set]
  norm_num

theorem setWritten_8192 : setWritten ⟨8192, 0, List.replicate 1984 0⟩ 0 2 =
    ⟨8192, 2, 1 :: 1 :: List.replicate 1982 0⟩ := by
  rw [replicate1984_split]
  simp only [setWritten, sizeBlocks, BLOCK_SIZE, W64]
  norm_num
  simp only [touchRange, entryAt, touch, readACTR, writeACTR,
    List.getD_cons_zero, List.getD_cons_succ, List.set]
  norm_num

/-- A page-sized region (1984 entries) is left alone by `resizeRegion`
for any block count that still fits one page. -/
theorem resizeRegion_onepage (x y : Nat) (t : List Nat) (nb : Nat)
    (hl : t.length = 1982) (hnb : nb ≤ 1984) :
    resizeRegion (x :: y :: t) nb = x :: y :: t := by
  simp only [resizeRegion, pageRound, BLOCK_SIZE, List.isEmpty_cons,
    List.length_cons, hl]
  norm_num
  intro h
  omega

/-- The S3 extend: `Resize(5121)` discards the stale tail block's entry
without touching `blocks_used`. -/
theorem fiResize_5121 : fiResize ⟨5120, 2, 1 :: 1 :: List.replicate 1982 0⟩ 5121 =
    (⟨5121, 2, 1 :: 0 :: List.replicate 1982 0⟩, 1) := by
  simp only [fiResize, sizeBlocks, BLOCK_SIZE]
  norm_num
  simp only [entryAt, discardEntry, readACTR, List.getD_cons_zero, List.getD_cons_succ]
  norm_num
  exact resizeRegion_onepage _ _ _ _ (List.length_replicate _ _) (by norm_num)

/-- The C5 shrink: `Resize(4096)` counts one discarded block but leaves
the stale entry of block 1 in the one-page region. -/
theorem fiResize_4096 : fiResize ⟨8192, 2, 1 :: 1 :: List.replicate 1982 0⟩ 4096 =
    (⟨4096, 2, 1 :: 1 :: List.replicate 1982 0⟩, 1) := by
  simp only [fiResize, sizeBlocks, BLOCK_SIZE]
  norm_num
  simp only [countAvail, entryAt, blockIsAvailable, readACTR]
  norm_num [List.range']
  · exact resizeRegion_onepage _ _ _ _ (List.length_replicate _ _) (by norm_num)

/-- The C5 grow back: `Resize(8192)` re-exposes the stale entry. -/
theorem fiResize_regrow : fiResize ⟨4096, 2, 1 :: 1 :: List.replicate 1982 0⟩ 8192 =
    (⟨8192, 2, 1 :: 1 :: List.replicate 1982 0⟩, 0) := by
  simp only [fiResize, sizeBlocks, BLOCK_SIZE]
  norm_num
  exact resizeRegion_onepage _ _ _ _ (List.length_replicate _ _) (by norm_num)

/-- The S3 `PutData(5120 bytes, 0)` in full. -/
theorem putData_S3 : putData cfEmpty 5120 0 =
    (⟨⟨5120, 2, 1 :: 1 :: List.replicate 1982 0⟩, 5120⟩, none) := by
  simp only [putData, cfEmpty, appendToEnd, cfResize, writeAndMarkWritten,
    BLOCK_SIZE]
  norm_num
  rw [show (fiResize ⟨0, 0, []⟩ 5120).1 = ⟨5120, 0, List.replicate 1984 0⟩ from
    congrArg Prod.fst fiResize_nil_5120]
  rw [setWritten_5120]

/-- **C1.** The claimed invariant — the number of blockmap entries with
`ACTR > 0` equals `Blocks()` — is broken by the code: after
`PutData(5120 bytes, 0); Resize(5121)` (the spec's own S3 scenario,
reached through claim-scope operations), `Resize` discards the stale
tail block's entry without decrementing `blocks_used`, so `Blocks()`
reports 2 while only one entry has `ACTR > 0`. -/
theorem claim_C1 :
    fiBlocks stS3 = 2 ∧ countACTRpos stS3.bmap = 1 ∧
      (fiResize (putData cfEmpty 5120 0).1.inode 5121).2 = 1 := by
  have h : stS3 = ⟨5121, 2, 1 :: 0 :: List.replicate 1982 0⟩ := by
    rw [stS3, putData_S3]
    exact congrArg Prod.fst fiResize_5121
  refine ⟨by rw [h]; rfl, ?_, by rw [putData_S3]; exact congrArg Prod.snd fiResize_5121⟩
  rw [h]
  show countACTRpos (1 :: 0 :: List.replicate 1982 0) = 1
  rw [countACTRpos_cons, countACTRpos_cons, countACTRpos_replicate_zero]
  decide

/-- The state for the C2 counterexample: a 4196-byte file whose block 1
was discarded (so the last, unaligned block is not available). -/
def cfC2 : CachedFile :=
  let cf := (putData cfEmpty 4196 0).1
  { cf with inode := (fiDiscard cf.inode 1 2).1 }

/-- **C2 (counterexample).** With `size = 4196`, a `PutData` of 100
bytes at position 4096 has `position ≠ size` and
`position + len = size` (not `> size`), so the claim classifies it as a
random write and — the last touched block being unaligned and
unavailable — demands `ErrMustBeAligned`; the code's `>= size` dispatch
sends it to write-and-extend, which only checks the first block and
accepts. -/
theorem claim_C2_counterexample :
    cfC2.dataSize = 4196
    ∧ 4096 + 100 = cfC2.dataSize
    ∧ (4096 + 100) % BLOCK_SIZE ≠ 0
    ∧ isAvailable cfC2.inode ((4096 + 100 - 1) / BLOCK_SIZE) = false
    ∧ (putData cfC2 100 4096).2 = none := by
  decide

/-- **C2 (amended).** `PutData(data, position)` dispatches on position
versus the current size: `position == size` appends and is never
rejected; `position + len ≥ size` (the code's `>=`, not the claim's `>`)
is a write-and-extend that returns `ErrMustBeAligned` iff the first
touched block is unaligned (`position % 4096 ≠ 0`) and not already
available; `position + len < size` is a random write that returns
`ErrMustBeAligned` iff the first or the last touched block is unaligned
and that block is not already available.  No other error is returned. -/
theorem claim_C2 (cf : CachedFile) (len p : Nat) :
    ((putData cf len p).2 = none ∨ (putData cf len p).2 = some CErr.mustBeAligned)
    ∧ (p = cf.dataSize → (putData cf len p).2 = none)
    ∧ (p ≠ cf.dataSize → cf.dataSize ≤ p + len →
        ((putData cf len p).2 = some CErr.mustBeAligned ↔
          (p % BLOCK_SIZE ≠ 0 ∧ isAvailable cf.inode (p / BLOCK_SIZE) = false)))
    ∧ (p + len < cf.dataSize →
        ((putData cf len p).2 = some CErr.mustBeAligned ↔
          ((p % BLOCK_SIZE ≠ 0 ∧ isAvailable cf.inode (p / BLOCK_SIZE) = false)
           ∨ ((p + len) % BLOCK_SIZE ≠ 0 ∧
               isAvailable cf.inode ((p + len) / BLOCK_SIZE) = false)))) := by
  have hcond : ∀ q : Nat, (q % BLOCK_SIZE ≠ 0 ∧ isAvailable cf.inode (q / BLOCK_SIZE) = false) ↔
      (¬(q / BLOCK_SIZE * BLOCK_SIZE = q) ∧
        ¬(isAvailable cf.inode (q / BLOCK_SIZE) = true)) := by
    intro q
    constructor
    · rintro ⟨h1, h2⟩
      exact ⟨by simp only [BLOCK_SIZE] at h1 ⊢; omega, by rw [h2]; simp⟩
    · rintro ⟨h1, h2⟩
      refine ⟨by simp only [BLOCK_SIZE] at h1 ⊢; omega, ?_⟩
      cases hb : isAvailable cf.inode (q / BLOCK_SIZE)
      · rfl
      · exact absurd hb h2
  refine ⟨?_, ?_, ?_, ?_⟩
  · simp only [putData, appendToEnd, writeAndExtend, writeRandom]
    split_ifs <;> simp
  · intro h
    simp [putData, h, appendToEnd]
  · intro hne hge
    have hge' : len + p ≥ cf.dataSize := by omega
    simp only [putData, if_neg hne, if_pos hge', writeAndExtend]
    by_cases hc : ¬(p / BLOCK_SIZE * BLOCK_SIZE = p) ∧
        ¬(isAvailable cf.inode (p / BLOCK_SIZE) = true)
    · rw [if_pos hc]
      exact iff_of_true rfl ((hcond p).mpr hc)
    · rw [if_neg hc]
      exact iff_of_false (by simp) (fun hy => hc ((hcond p).mp hy))
  · intro hlt
    have h1 : p ≠ cf.dataSize := by omega
    have h2 : ¬(len + p ≥ cf.dataSize) := by omega
    simp only [putData, if_neg h1, if_neg h2, writeRandom]
    by_cases hc1 : ¬(p / BLOCK_SIZE * BLOCK_SIZE = p) ∧
        ¬(isAvailable cf.inode (p / BLOCK_SIZE) = true)
    · rw [if_pos hc1]
      exact iff_of_true rfl (Or.inl ((hcond p).mpr hc1))
    · rw [if_neg hc1]
      by_cases hc2 : ¬((p + len + BLOCK_SIZE - 1) / BLOCK_SIZE * BLOCK_SIZE = p + len) ∧
          ¬(isAvailable cf.inode ((p + len + BLOCK_SIZE - 1) / BLOCK_SIZE - 1) = true)
      · rw [if_pos hc2]
        refine iff_of_true rfl (Or.inr ?_)
        have hmod : (p + len) % BLOCK_SIZE ≠ 0 := by
          have := hc2.1
          simp only [BLOCK_SIZE] at this ⊢
          omega
        have hidx : (p + len + BLOCK_SIZE - 1) / BLOCK_SIZE - 1 = (p + len) / BLOCK_SIZE := by
          simp only [BLOCK_SIZE] at hmod ⊢
          omega
        refine ⟨hmod, ?_⟩
        rw [← hidx]
        cases hb : isAvailable cf.inode ((p + len + BLOCK_SIZE - 1) / BLOCK_SIZE - 1)
        · rfl
        · exact absurd hb hc2.2
      · rw [if_neg hc2]
        refine iff_of_false (by simp) ?_
        rintro (hy | hy)
        · exact hc1 ((hcond p).mp hy)
        · refine hc2 ⟨?_, ?_⟩
          · have := hy.1
            simp only [BLOCK_SIZE] at this ⊢
            omega
          · have hidx : (p + len + BLOCK_SIZE - 1) / BLOCK_SIZE - 1 = (p + len) / BLOCK_SIZE := by
              have := hy.1
              simp only [BLOCK_SIZE] at this ⊢
              omega
            rw [hidx, hy.2]
            simp

/-- Witness for C2 at the concrete state `cfC2` (a write-and-extend
reaching exactly the end of the file, and an append). -/
theorem claim_C2_witness :
    ((putData cfC2 100 4096).2 = some CErr.mustBeAligned ↔
      (4096 % BLOCK_SIZE ≠ 0 ∧ isAvailable cfC2.inode (4096 / BLOCK_SIZE) = false))
    ∧ (putData cfC2 7 4196).2 = none :=
  ⟨(claim_C2 cfC2 100 4096).2.2.1 (by decide) (by decide),
   (claim_C2 cfC2 7 4196).2.1 (by decide)⟩

/-- The state for the C3 counterexample: a 1024-byte file whose single
block is cached (`PutData(1024 bytes, 0)`). -/
def cfC3 : CachedFile := (putData cfEmpty 1024 0).1

/-- **C3 (counterexample).** `FetchData(buf[4096], 0)` on a fully cached
1024-byte file is short only because of end-of-file, yet the code
returns the wrapped `EIO` error together with the 1024 bytes; the claim
says a read short only due to EOF carries no error. -/
theorem claim_C3_counterexample :
    cfC3.inode.size = 1024
    ∧ isAvailable cfC3.inode 0 = true
    ∧ fetchData cfC3 4096 0 = some (1024, some CErr.eio) := by
  decide

end DragonStash

namespace DragonStash

theorem sub64_of_le {a b : Nat} (h : b ≤ a) (ha : a < 2 ^ 64) : sub64 a b = a - b := by
  simp only [sub64, W64] at *
  omega

theorem scanUnavail_eq_none_iff (n : Nat) : ∀ (l : List Nat) (i : Nat),
    scanUnavail l i n = none ↔
      ∀ j, i ≤ j → j < i + n → blockIsAvailable (entryAt l j) = true := by
  induction n with
  | zero =>
    intro l i
    simp only [scanUnavail]
    constructor
    · intro _ j h1 h2
      omega
    · intro _
      trivial
  | succ n ih =>
    intro l i
    simp only [scanUnavail]
    by_cases hav : blockIsAvailable (entryAt l i) = true
    · rw [if_pos hav, ih]
      constructor
      · intro h j hj1 hj2
        rcases Nat.eq_or_lt_of_le hj1 with rfl | hlt
        · exact hav
        · exact h j hlt (by omega)
      · intro h j hj1 hj2
        exact h j (by omega) (by omega)
    · rw [if_neg hav]
      constructor
      · intro h
        exact absurd h (by simp)
      · intro h
        exact absurd (h i (by omega) (by omega)) hav

theorem scanUnavail_eq_some_iff (n : Nat) : ∀ (l : List Nat) (i b : Nat),
    scanUnavail l i n = some b ↔
      (i ≤ b ∧ b < i + n ∧ blockIsAvailable (entryAt l b) = false
       ∧ ∀ j, i ≤ j → j < b → blockIsAvailable (entryAt l j) = true) := by
  induction n with
  | zero =>
    intro l i b
    simp only [scanUnavail]
    constructor
    · intro h
      exact absurd h (by simp)
    · intro ⟨h1, h2, _, _⟩
      omega
  | succ n ih =>
    intro l i b
    simp only [scanUnavail]
    by_cases hav : blockIsAvailable (entryAt l i) = true
    · rw [if_pos hav, ih]
      constructor
      · intro ⟨h1, h2, h3, h4⟩
        refine ⟨by omega, by omega, h3, ?_⟩
        intro j hj1 hj2
        rcases Nat.eq_or_lt_of_le hj1 with rfl | hlt
        · exact hav
        · exact h4 j hlt hj2
      · intro ⟨h1, h2, h3, h4⟩
        have hbi : b ≠ i := by
          intro he
          rw [he] at h3
          rw [h3] at hav
          exact absurd hav (by simp)
        refine ⟨by omega, by omega, h3, ?_⟩
        intro j hj1 hj2
        exact h4 j (by omega) hj2
    · rw [if_neg hav]
      constructor
      · intro h
        have hbi : b = i := by
          have := Option.some.inj h
          omega
        subst hbi
        refine ⟨le_rfl, by omega, ?_, by intro j h1 h2; omega⟩
        cases hx : blockIsAvailable (entryAt l b)
        · rfl
        · exact absurd hx hav
      · intro ⟨h1, h2, h3, h4⟩
        have hbi : b = i := by
          by_contra hne
          exact absurd (h4 i (by omega) (by omega)) hav
        rw [hbi]

/-- The first block index at or after `s` that is not available
(`IsAvailable` semantics: raw blockmap entry below `SizeBlocks`, false
at or beyond it). -/
def firstUnavailFrom (st : FileInode) (s : Nat) : Nat :=
  match scanUnavail st.bmap s (sizeBlocks st - s) with
  | some b => b
  | none => max s (sizeBlocks st)

theorem truncateRead_actual (st : FileInode) (p size : Nat)
    (hp : p ≤ st.size) (hb : st.size + size + BLOCK_SIZE < W64) :
    (truncateRead st p size).1 =
      min size (min (BLOCK_SIZE * firstUnavailFrom st (p / BLOCK_SIZE))
        st.size - p) := by
  simp only [BLOCK_SIZE, W64] at hb ⊢
  by_cases hfs : st.size = 0
  · have hp0 : p = 0 := by omega
    subst hp0
    have h1 : sizeBlocks st = 0 := by
      simp only [sizeBlocks, BLOCK_SIZE, hfs]
    have h2 : firstUnavailFrom st 0 = 0 := by
      simp only [firstUnavailFrom, h1]
      rfl
    simp only [truncateRead, if_pos hfs, hfs, Nat.zero_div, h2]
    simp
  · -- non-empty file
    have hW : st.size < 2 ^ 64 := by omega
    set sb := p / 4096 with hsb
    set nb := sizeBlocks st with hnb
    have hnbd : nb = (st.size + 4095) / 4096 := by
      simp only [hnb, sizeBlocks, BLOCK_SIZE]
      norm_num
    set e := min (p + size) st.size with he
    have he1 : p ≤ e := by omega
    have he2 : e ≤ st.size := by omega
    set eb := (e + 4095) / 4096 with heb
    have hebnb : eb ≤ nb := by omega
    -- the first-unavailable scan over the whole file, for the RHS
    have hFdef : firstUnavailFrom st sb =
        match scanUnavail st.bmap sb (nb - sb) with
        | some b => b
        | none => max sb nb := by
      simp only [firstUnavailFrom, hnb]
    -- unfold the code
    simp only [truncateRead, if_neg hfs]
    have hebs : (if p + size > st.size then
        (st.size, sub64 st.size p, true) else (p + size, size, false) :
        Nat × Nat × Bool) = (e, e - p,
          if p + size > st.size then true else false) := by
      by_cases hc : p + size > st.size
      · rw [if_pos hc, if_pos hc, sub64_of_le hp hW]
        simp only [Prod.mk.injEq]
        refine ⟨by omega, by omega, trivial⟩
      · rw [if_neg hc, if_neg hc]
        simp only [Prod.mk.injEq]
        refine ⟨by omega, by omega, trivial⟩
    rw [hebs]
    simp only [BLOCK_SIZE, W64]
    have hmod : (p + (e - p) + (4096 - 1)) % 2 ^ 64 = e + 4095 := by
      have h1 : p + (e - p) + (4096 - 1) = e + 4095 := by omega
      rw [h1, Nat.mod_eq_of_lt (by omega)]
    rw [hmod]
    set scan := scanUnavail st.bmap sb ((e + 4095) / 4096 - sb) with hscan
    cases hs : scan with
    | some b =>
      have hfact := (scanUnavail_eq_some_iff ((e + 4095) / 4096 - sb) st.bmap sb b).mp
        (by rw [hscan] at hs; exact hs)
      have hsbb : sb ≤ b := hfact.1
      have hblt : b < eb := by
        have h2 := hfact.2.1
        omega
      have hFb : firstUnavailFrom st sb = b := by
        rw [hFdef]
        have hsnb : scanUnavail st.bmap sb (nb - sb) = some b := by
          rw [scanUnavail_eq_some_iff]
          exact ⟨hsbb, by omega, hfact.2.2.1, hfact.2.2.2⟩
        rw [hsnb]
      rw [hFb]
      simp only [Option.getD]
      by_cases hle : b ≤ sb
      · rw [if_pos hle]
        omega
      · rw [if_neg hle]
        have hpb : p < b * 4096 := by omega
        by_cases h1 : b * 4096 > e
        · rw [if_pos h1]
          have h2 : ¬ e > st.size := by omega
          rw [if_neg h2, sub64_of_le (by omega) (by omega)]
          omega
        · rw [if_neg h1]
          have h2 : ¬ b * 4096 > st.size := by omega
          rw [if_neg h2, sub64_of_le (by omega) (by omega)]
          omega
    | none =>
      have hall := (scanUnavail_eq_none_iff ((e + 4095) / 4096 - sb) st.bmap sb).mp
        (by rw [hscan] at hs; exact hs)
      simp only [Option.getD]
      by_cases hle : (e + 4095) / 4096 ≤ sb
      · rw [if_pos hle]
        dsimp only
        omega
      · rw [if_neg hle]
        have hFge : eb ≤ firstUnavailFrom st sb := by
          rw [hFdef]
          cases hsc2 : scanUnavail st.bmap sb (nb - sb) with
          | none =>
            dsimp only
            exact le_trans hebnb (le_max_right _ _)
          | some c =>
            dsimp only
            have hf2 := (scanUnavail_eq_some_iff (nb - sb) st.bmap sb c).mp hsc2
            by_contra hlt
            have hcin := hall c hf2.1 (by omega)
            rw [hf2.2.2.1] at hcin
            exact absurd hcin (by simp)
        have hebe : e ≤ eb * 4096 := by omega
        by_cases h1 : (e + 4095) / 4096 * 4096 > e
        · rw [if_pos h1]
          have h2 : ¬ e > st.size := by omega
          rw [if_neg h2, sub64_of_le (by omega) (by omega)]
          omega
        · rw [if_neg h1]
          have h2 : ¬ (e + 4095) / 4096 * 4096 > st.size := by omega
          rw [if_neg h2, sub64_of_le (by omega) (by omega)]
          omega

/-- **C3 (amended).** For `position ≤ size` (beyond the end of file the
code's `uint64` subtractions in `TruncateRead` underflow) and in-sync
`.data` file, `FetchData(buf, position)` reads
`to_read = min(len(buf), E − position)` bytes — clamped at 0 — where
`E` is the end byte of the contiguous run of available blocks starting
at `floor(position/4096)`, clamped to the file size; and it returns an
I/O error exactly when fewer than `len(buf)` bytes are delivered — also
when the shortfall is due only to end-of-file (the claim's no-error
clause for EOF does not hold, see the counterexample), and no error
when `len(buf)` is 0. -/
theorem claim_C3 (cf : CachedFile) (buflen p : Nat)
    (hdata : cf.dataSize = cf.inode.size)
    (hp : p ≤ cf.inode.size)
    (hb : cf.inode.size + buflen + BLOCK_SIZE < W64) :
    fetchData cf buflen p =
      some (min buflen
          (min (BLOCK_SIZE * firstUnavailFrom cf.inode (p / BLOCK_SIZE))
            cf.inode.size - p),
        if min buflen
            (min (BLOCK_SIZE * firstUnavailFrom cf.inode (p / BLOCK_SIZE))
              cf.inode.size - p) < buflen then some CErr.eio else none) := by
  have hT := truncateRead_actual cf.inode p buflen hp hb
  simp only [fetchData, hT]
  have h1 : ¬ min buflen
      (min (BLOCK_SIZE * firstUnavailFrom cf.inode (p / BLOCK_SIZE))
        cf.inode.size - p) > buflen := by omega
  rw [if_neg h1]
  have h2 : min (min buflen
      (min (BLOCK_SIZE * firstUnavailFrom cf.inode (p / BLOCK_SIZE))
        cf.inode.size - p)) (cf.dataSize - p) =
      min buflen
      (min (BLOCK_SIZE * firstUnavailFrom cf.inode (p / BLOCK_SIZE))
        cf.inode.size - p) := by
    rw [hdata]
    omega
  rw [h2]

/-- Witness for C3 at the concrete state `cfC3` (single cached block,
1024-byte file, 4096-byte buffer). -/
theorem claim_C3_witness :
    cfC3.dataSize = cfC3.inode.size
    ∧ fetchData cfC3 4096 0 =
      some (min 4096
          (min (BLOCK_SIZE * firstUnavailFrom cfC3.inode (0 / BLOCK_SIZE))
            cfC3.inode.size - 0),
        if min 4096
            (min (BLOCK_SIZE * firstUnavailFrom cfC3.inode (0 / BLOCK_SIZE))
              cfC3.inode.size - 0) < 4096 then some CErr.eio else none) :=
  ⟨by decide, claim_C3 cfC3 4096 0 (by decide) (by decide) (by decide)⟩

end DragonStash

namespace DragonStash

/-- The state for the C5 counterexample: `Resize(8192)`,
`SetWritten(0,2)`, then `Resize(4096)` — the shrink leaves the stale
entry of block 1 in the (still one-page) blockmap region. -/
def stC5 : FileInode :=
  (fiResize (setWritten (fiResize ⟨0, 0, []⟩ 8192).1 0 2) 4096).1

/-- **C5 (counterexample).** Growing the file again
(`Resize(8192)`, an "other case": no block shrink, old size
block-aligned) reports 0 discarded — but block 1's availability
changes from false to true, because the earlier shrink never cleared
its stale blockmap entry; the claim says that in all other cases no
block's availability changes. -/
theorem claim_C5_counterexample :
    isAvailable stC5 1 = false
    ∧ (fiResize stC5 8192).2 = 0
    ∧ isAvailable (fiResize stC5 8192).1 1 = true := by
  have h : stC5 = ⟨4096, 2, 1 :: 1 :: List.replicate 1982 0⟩ := by
    rw [stC5]
    rw [show (fiResize ⟨0, 0, []⟩ 8192).1 = ⟨8192, 0, List.replicate 1984 0⟩ from
      congrArg Prod.fst fiResize_nil_8192, setWritten_8192]
    exact congrArg Prod.fst fiResize_4096
  rw [h]
  refine ⟨?_, ?_, ?_⟩
  · simp only [isAvailable, sizeBlocks, BLOCK_SIZE]
    norm_num
  · exact congrArg Prod.snd fiResize_regrow
  · rw [show (fiResize (⟨4096, 2, 1 :: 1 :: List.replicate 1982 0⟩ : FileInode) 8192).1 =
      ⟨8192, 2, 1 :: 1 :: List.replicate 1982 0⟩ from congrArg Prod.fst fiResize_regrow]
    simp only [isAvailable, sizeBlocks, BLOCK_SIZE, entryAt, List.getD_cons_zero,
      List.getD_cons_succ, blockIsAvailable, readACTR]
    norm_num

theorem entryAt_adjustRegion_lt (l : List Nat) (n b : Nat) (hb : b < n) :
    entryAt (adjustRegion l n) b = entryAt l b := by
  simp only [adjustRegion, entryAt, List.getD_eq_getElem?_getD, List.getElem?_append,
    List.length_take, List.getElem?_take, List.getElem?_replicate]
  by_cases h1 : b < min n l.length
  · rw [if_pos h1, if_pos hb]
  · rw [if_neg h1]
    have hbl : l.length ≤ b := by omega
    have h2 : b - min n l.length < n - l.length := by omega
    rw [if_pos h2, List.getElem?_eq_none (by omega)]
    rfl

theorem entryAt_resizeRegion_lt (l : List Nat) (nb b : Nat) (hb : b < nb) :
    entryAt (resizeRegion l nb) b = entryAt l b := by
  have hn : nb ≤ (pageRound (nb * 2 + 128) - 128) / 2 := by
    simp only [pageRound, BLOCK_SIZE]; omega
  by_cases h : (if l.isEmpty then 0 else 128 + 2 * l.length) = pageRound (nb * 2 + 128)
  · simp only [resizeRegion, if_pos h]
  · simp only [resizeRegion, if_neg h]
    exact entryAt_adjustRegion_lt l _ b (by omega)

/-- **C5 (amended).** `Resize(nbytes)` returns as discarded: when
`new_blocks < old_blocks`, the count of available blocks in
`[new_blocks, old_blocks)`; otherwise, when
`nbytes > old_size > 0` and `old_size` is not a multiple of 4096, 1 if
the previously-last block was available, else 0; in all other cases 0 —
and then the availability of every block *below the old block count* is
unchanged (a block newly brought into range by growth may re-expose a
stale entry left by an earlier shrink, as the counterexample shows,
so preservation cannot be claimed for all blocks). -/
theorem claim_C5 (st : FileInode) (nbytes : Nat) :
    ((fiResize st nbytes).2 =
      if (nbytes + BLOCK_SIZE - 1) / BLOCK_SIZE < sizeBlocks st then
        ((List.range' ((nbytes + BLOCK_SIZE - 1) / BLOCK_SIZE)
            (sizeBlocks st - (nbytes + BLOCK_SIZE - 1) / BLOCK_SIZE)).filter
          (fun b => isAvailable st b)).length
      else if st.size < nbytes ∧ 0 < st.size ∧ st.size % BLOCK_SIZE ≠ 0 then
        (if isAvailable st (sizeBlocks st - 1) then 1 else 0)
      else 0)
    ∧ (¬ (nbytes + BLOCK_SIZE - 1) / BLOCK_SIZE < sizeBlocks st →
        ¬ (st.size < nbytes ∧ 0 < st.size ∧ st.size % BLOCK_SIZE ≠ 0) →
        ∀ b, b < sizeBlocks st →
          isAvailable (fiResize st nbytes).1 b = isAvailable st b) := by
  constructor
  · simp only [fiResize]
    by_cases h1 : (nbytes + BLOCK_SIZE - 1) / BLOCK_SIZE < sizeBlocks st
    · rw [if_pos h1, if_pos h1]
      simp only [countAvail]
      congr 1
      apply List.filter_congr
      intro b hb
      rw [List.mem_range'_1] at hb
      have hblt : b < sizeBlocks st := by omega
      simp [isAvailable, hblt, Nat.not_le.mpr hblt]
    · rw [if_neg h1, if_neg h1]
      by_cases h2 : st.size < nbytes ∧ 0 < st.size ∧ st.size % BLOCK_SIZE ≠ 0
      · rw [if_pos h2, if_pos h2]
        have hob : sizeBlocks st - 1 < sizeBlocks st := by
          have : 0 < st.size := h2.2.1
          simp only [sizeBlocks, BLOCK_SIZE] at *
          omega
        simp [discardEntry, isAvailable, Nat.not_le.mpr hob, blockIsAvailable]
      · rw [if_neg h2, if_neg h2]
  · intro h1 h2 b hb
    simp only [fiResize, if_neg h1, if_neg h2]
    have hbnb : b < (nbytes + BLOCK_SIZE - 1) / BLOCK_SIZE := by omega
    simp only [isAvailable, sizeBlocks] at hb ⊢
    rw [if_neg (by simp only [sizeBlocks, BLOCK_SIZE] at *; omega),
      if_neg (by omega)]
    rw [entryAt_resizeRegion_lt _ _ _ hbnb]

/-- Witness for C5 at the spec's S4 scenario (shrink by one byte:
nothing is discarded and block 1 stays available). -/
theorem claim_C5_witness :
    (¬ ((5119 + BLOCK_SIZE - 1) / BLOCK_SIZE <
        sizeBlocks ⟨5120, 2, 1 :: 1 :: List.replicate 1982 0⟩))
    ∧ isAvailable (fiResize ⟨5120, 2, 1 :: 1 :: List.replicate 1982 0⟩ 5119).1 1 =
        isAvailable ⟨5120, 2, 1 :: 1 :: List.replicate 1982 0⟩ 1 :=
  ⟨by decide, (claim_C5 _ 5119).2 (by decide) (by decide) 1 (by decide)⟩

/-- An inode whose extension matches its mode's type bits. -/
def wfInode (i : Inode) : Prop :=
  match i.ext with
  | .link _ => typeBits i.base.mode = S_IFLNK
  | .dir _ => typeBits i.base.mode = S_IFDIR
  | .reg _ _ => typeBits i.base.mode = S_IFREG

theorem typeBits_idem (m : Nat) : typeBits (typeBits m) = typeBits m := by
  simp only [typeBits]; omega

theorem typeBits_chmod (m p : Nat) : typeBits (chmodMode m p) = typeBits m := by
  simp only [typeBits, chmodMode]; omega

theorem aget_aput (l : List (String × Inode)) (k : String) (v : Inode) :
    aget (aput l k v) k = some v := by
  simp [aget, aput, List.find?_cons_of_pos]

/-- **C7 (amended).** Round-trip through the cache manager: provided
the stat's format is one of link/dir/regular, the in-memory inodes are
well-formed, and either the path's inode is in the in-memory map with
the same format or no file exists under its storage key (so `PutAttr`
neither panics in `createEmptyInode` nor updates a disk-loaded orphan
the map never sees), `PutAttr(p, s)` followed by `FetchAttr(p)` returns
a stat equal to `s` in mtime, atime, ctime, size, uid and gid, whose
mode agrees with `s.mode` in the permission bits (`% 512`) and in the
type bits — bits outside these (e.g. setuid) are not round-tripped, see
the counterexample — and whose blocks field is 0 for non-regular inodes
and the cached block count for regular ones. -/
theorem claim_C7 (st : FileCacheState) (path : String) (s : Stat)
    (hfmt : typeBits s.mode = S_IFLNK ∨ typeBits s.mode = S_IFDIR ∨
      typeBits s.mode = S_IFREG)
    (hwf : ∀ q i, aget st.mem q = some i → wfInode i)
    (hstate : (∃ i0, aget st.mem (normalizePath path) = some i0 ∧
        typeBits i0.base.mode = typeBits s.mode)
      ∨ dget st.disk (normalizePath path, "") = none) :
    ∃ st' i', putAttr st path s = some st'
      ∧ aget st'.mem (normalizePath path) = some i'
      ∧ fetchAttr st' path = some (statView i')
      ∧ (statView i').mtime = s.mtime ∧ (statView i').atime = s.atime
      ∧ (statView i').ctime = s.ctime ∧ (statView i').size = s.size
      ∧ (statView i').uid = s.uid ∧ (statView i').gid = s.gid
      ∧ (statView i').mode % 512 = s.mode % 512
      ∧ typeBits (statView i').mode = typeBits s.mode
      ∧ (typeBits s.mode ≠ S_IFREG → (statView i').blocks = 0)
      ∧ (typeBits s.mode = S_IFREG →
          (statView i').blocks = fiBlocks (regFI i')) := by
  have key : ∃ st1 i, requireInode st (normalizePath path) (typeBits s.mode) =
      some (st1, i, Prov.inMem)
      ∧ typeBits i.base.mode = typeBits s.mode ∧ wfInode i := by
    have fresh_ok : (dget st.disk (normalizePath path, "") = none) →
        ∃ j disk', createEmptyInode st.disk (normalizePath path) (typeBits s.mode) =
          some (j, disk') ∧ typeBits j.base.mode = typeBits s.mode ∧ wfInode j := by
      intro hd
      rcases hfmt with h | h | h
      · refine ⟨⟨normalizePath path, ⟨S_IFLNK, 0, 0, 0, 0, 0, 0⟩, .link ""⟩, st.disk,
          ?_, ?_, ?_⟩
        · rw [h]; simp [createEmptyInode]
        · rw [h]; exact (by decide : typeBits S_IFLNK = S_IFLNK)
        · exact (by decide : typeBits S_IFLNK = S_IFLNK)
      · refine ⟨⟨normalizePath path, ⟨S_IFDIR, 0, 0, 0, 0, 0, 0⟩, .dir []⟩, st.disk,
          ?_, ?_, ?_⟩
        · rw [h]; simp [createEmptyInode, S_IFDIR, S_IFLNK]
        · rw [h]; exact (by decide : typeBits S_IFDIR = S_IFDIR)
        · exact (by decide : typeBits S_IFDIR = S_IFDIR)
      · refine ⟨⟨normalizePath path, ⟨S_IFREG, 0, 0, 0, 0, 0, 0⟩, .reg 0 []⟩,
          dput st.disk (normalizePath path, "") none, ?_, ?_, ?_⟩
        · rw [h]; simp [createEmptyInode, S_IFREG, S_IFDIR, S_IFLNK, hd]
        · rw [h]; exact (by decide : typeBits S_IFREG = S_IFREG)
        · exact (by decide : typeBits S_IFREG = S_IFREG)
    rcases hstate with ⟨i0, hm, hf⟩ | hd
    · exact ⟨st, i0, by simp [requireInode, hm, hf], hf, hwf _ i0 hm⟩
    · cases hm : aget st.mem (normalizePath path) with
      | some i0 =>
        by_cases hf : typeBits i0.base.mode = typeBits s.mode
        · exact ⟨st, i0, by simp [requireInode, hm, hf], hf, hwf _ i0 hm⟩
        · rcases fresh_ok hd with ⟨j, disk', hce, hj1, hj2⟩
          refine ⟨{ st with
            mem := aput st.mem (normalizePath path) j, disk := disk',
            dirty := markDirty st.dirty j }, j, ?_, hj1, hj2⟩
          simp [requireInode, hm, hf, hce]
      | none =>
        rcases fresh_ok hd with ⟨j, disk', hce, hj1, hj2⟩
        refine ⟨{ st with
          mem := aput st.mem (normalizePath path) j, disk := disk',
          dirty := markDirty st.dirty j }, j, ?_, hj1, hj2⟩
        simp [requireInode, hm, hd, hce]
  rcases key with ⟨st1, i, hreq, hfi, hwfi⟩
  have hput : putAttr st path s =
      some (commitUpdate st1 (normalizePath path) (updateInode s i) Prov.inMem) := by
    simp [putAttr, hreq]
  refine ⟨_, updateInode s i, hput, ?_, ?_, ?_⟩
  · simp [commitUpdate, aget_aput]
  · simp [fetchAttr, getInode, commitUpdate, aget_aput]
  · -- field equalities
    have hmode : (updateInode s i).base.mode = chmodMode i.base.mode s.mode := by
      cases hext : i.ext <;> simp [updateInode, hext]
    cases hext : i.ext with
    | link d =>
      have hb : (updateInode s i).base =
          { mode := chmodMode i.base.mode s.mode, mtime := s.mtime, atime := s.atime,
            ctime := s.ctime, size := s.size, uid := s.uid, gid := s.gid } := by
        simp [updateInode, hext]
      have hfl : typeBits s.mode = S_IFLNK := by
        have := hwfi
        simp only [wfInode, hext] at this
        omega
      refine ⟨by simp [statView, hb], by simp [statView, hb], by simp [statView, hb],
        by simp [statView, hb], by simp [statView, hb], by simp [statView, hb],
        ?_, ?_, ?_, ?_⟩
      · simp only [statView, hb, chmodMode]; omega
      · simp only [statView, hb, typeBits_chmod]; omega
      · intro _
        simp [statView, updateInode, hext]
      · intro hr
        rw [hfl] at hr
        exact absurd hr (by decide)
    | dir c =>
      have hb : (updateInode s i).base =
          { mode := chmodMode i.base.mode s.mode, mtime := s.mtime, atime := s.atime,
            ctime := s.ctime, size := s.size, uid := s.uid, gid := s.gid } := by
        simp [updateInode, hext]
      have hfl : typeBits s.mode = S_IFDIR := by
        have := hwfi
        simp only [wfInode, hext] at this
        omega
      refine ⟨by simp [statView, hb], by simp [statView, hb], by simp [statView, hb],
        by simp [statView, hb], by simp [statView, hb], by simp [statView, hb],
        ?_, ?_, ?_, ?_⟩
      · simp only [statView, hb, chmodMode]; omega
      · simp only [statView, hb, typeBits_chmod]; omega
      · intro _
        simp [statView, updateInode, hext]
      · intro hr
        rw [hfl] at hr
        exact absurd hr (by decide)
    | reg bu bmap =>
      have hfl : typeBits s.mode = S_IFREG := by
        have := hwfi
        simp only [wfInode, hext] at this
        omega
      have hb : (updateInode s i).base.mode = chmodMode i.base.mode s.mode
          ∧ (updateInode s i).base.mtime = s.mtime
          ∧ (updateInode s i).base.atime = s.atime
          ∧ (updateInode s i).base.ctime = s.ctime
          ∧ (updateInode s i).base.size = s.size
          ∧ (updateInode s i).base.uid = s.uid
          ∧ (updateInode s i).base.gid = s.gid := by
        simp [updateInode, hext, fiResize]
      refine ⟨by simp [statView, hb.2.1], by simp [statView, hb.2.2.1],
        by simp [statView, hb.2.2.2.1], by simp [statView, hb.2.2.2.2.1],
        by simp [statView, hb.2.2.2.2.2.1], by simp [statView, hb.2.2.2.2.2.2],
        ?_, ?_, ?_, ?_⟩
      · simp only [statView, hb.1, chmodMode]; omega
      · simp only [statView, hb.1, typeBits_chmod]; omega
      · intro hr
        exact absurd hfl hr
      · intro _
        simp [statView, regFI, updateInode, hext]

/-- The C7 witness stat: a directory with mode `0o40755`. -/
def statC7w : Stat := ⟨0o40755, 6789, 7890, 1234, 2345, 3456, 4567, 1024⟩

/-- Witness for C7: the repo's own `TestPutAndFetchAttr` scenario on the
empty cache. -/
theorem claim_C7_witness :
    ∃ st' i', putAttr emptyCache "/some/arbitrary/path" statC7w = some st'
      ∧ aget st'.mem (normalizePath "/some/arbitrary/path") = some i'
      ∧ fetchAttr st' "/some/arbitrary/path" = some (statView i')
      ∧ (statView i').mtime = statC7w.mtime ∧ (statView i').atime = statC7w.atime
      ∧ (statView i').ctime = statC7w.ctime ∧ (statView i').size = statC7w.size
      ∧ (statView i').uid = statC7w.uid ∧ (statView i').gid = statC7w.gid
      ∧ (statView i').mode % 512 = statC7w.mode % 512
      ∧ typeBits (statView i').mode = typeBits statC7w.mode
      ∧ (typeBits statC7w.mode ≠ S_IFREG → (statView i').blocks = 0)
      ∧ (typeBits statC7w.mode = S_IFREG →
          (statView i').blocks = fiBlocks (regFI i')) :=
  claim_C7 emptyCache "/some/arbitrary/path" statC7w
    (Or.inr (Or.inl (by decide)))
    (fun q i h => by simp [aget, emptyCache] at h)
    (Or.inr rfl)

/-- The cache state for the C6 run: `PutLink` (which writes the inode
back to disk), then `PutNonExistant`. -/
def cacheC6 : FileCacheState :=
  putNonExistant ((putLink emptyCache "/l" "../x").getD emptyCache) "/l"

/-- **C6.** `PutNonExistent(p)` followed by `FetchAttr(p)` must return a
non-nil error; but `deleteInode` removes the file at
`getStoragePath(path, ".inode")` while every other operation stores the
inode at `getStoragePath(path, "")`, so the on-disk inode written by
`PutLink`'s writeback survives and `FetchAttr` reloads it and succeeds. -/
theorem claim_C6 :
    (putLink emptyCache "/l" "../x").isSome = true
    ∧ (fetchAttr cacheC6 "/l").isSome = true := by
  decide

/-- The C7 counterexample stat: `S_IFLNK | S_ISUID | 0o644`. -/
def statC7 : Stat := ⟨0o124644, 1, 2, 3, 4, 5, 6, 0⟩

/-- **C7 (counterexample).** `PutAttr` goes through
`SetMode = Chmod`, which copies only the `rwx` permission bits, so a
mode with a setuid bit does not round-trip: `FetchAttr` reports mode
`0o120644`, not the stat's `0o124644`. -/
theorem claim_C7_counterexample :
    (putAttr emptyCache "/f" statC7).isSome = true
    ∧ (fetchAttr ((putAttr emptyCache "/f" statC7).getD emptyCache)
        "/f").map Stat.mode = some 0o120644
    ∧ statC7.mode = 0o124644 ∧ (0o120644 : Nat) ≠ 0o124644 := by
  decide

end DragonStash
